import Mathlib

/-!
# Verification of the CALIMA Star reinflector

A shallow embedding of `camel_tools/calima_star/reinflector.py`.

Analyses and feature-override dictionaries are modelled as association
lists of string pairs (Python dicts preserve insertion order and have
distinct keys).  The feature schema (`db.defines`) is a function from
feature names to `Option (Option (List String))`: `none` means the
feature is undefined, `some none` an open domain, `some (some vs)` a
finite domain `vs`.  The external analyzer, generator and the
`dediac_ar` utility are opaque function parameters, as the spec treats
them as black boxes.
-/

namespace CalimaStar

/-- A feature dictionary: ordered association list with string keys and
string values.  Used both for analyses and for caller overrides. -/
abbrev Feats := List (String × String)

/-- First-occurrence lookup in a feature dictionary, mirroring Python
`d[k]` / `k in d` on dicts (which have unique keys). -/
def lookupFeat : Feats → String → Option String
  | [], _ => none
  | (k, v) :: rest, key => if k = key then some v else lookupFeat rest key

/-- `_CLITIC_FEATS` from the source. -/
def cliticFeats : List String := ["enc0", "prc0", "prc1", "prc2", "prc3"]

/-- `_IGNORED_FEATS` from the source. -/
def ignoredFeats : List String :=
  ["diac", "lex", "bw", "gloss", "source", "stem",
   "stemcat", "lmm", "dediac", "caphi", "catib6",
   "ud", "d3seg", "atbseg", "d2seg", "d1seg", "d1tok",
   "d2tok", "atbtok", "d3tok", "root", "pattern",
   "freq", "POS_prob", "stemgloss"]

/-- `_SPECIFIED_FEATS` from the source. -/
def specifiedFeats : List String := ["form_gen", "form_num"]

/-- `_CLITIC_IGNORED_FEATS` from the source. -/
def cliticIgnoredFeats : List String := ["stt", "cas", "mod"]

/-- Reinflection-call errors (`InvalidReinflectorFeature` and
`InvalidReinflectorFeatureValue` in the source). -/
inductive ReinflectError where
  | invalidFeature (feat : String)
  | invalidFeatureValue (feat val : String)
  deriving DecidableEq

/-- The override-validation loop of `reinflect`: for each override key in
order, an undefined key raises `InvalidReinflectorFeature`; a defined key
whose schema domain is finite and does not contain the supplied value
raises `InvalidReinflectorFeatureValue`. -/
def validateFeats (defines : String → Option (Option (List String))) :
    Feats → Option ReinflectError
  | [] => none
  | (k, v) :: rest =>
    match defines k with
    | none => some (ReinflectError.invalidFeature k)
    | some none => validateFeats defines rest
    | some (some vs) =>
      if v ∈ vs then validateFeats defines rest
      else some (ReinflectError.invalidFeatureValue k v)

/-- The `has_clitics` computation: true iff some clitic-slot feature name
occurs among the override keys. -/
def hasCliticsOf (feats : Feats) : Bool :=
  cliticFeats.any (fun f => (lookupFeat feats f).isSome)

/-- `analysis[k]` where the data model guarantees the key is present
(`diac`, `lex`, `pos`); defaults to the empty string otherwise. -/
def getFeat (a : Feats) (k : String) : String :=
  (lookupFeat a k).getD ""

/-- `_LEMMA_SPLIT_RE.split(analysis['lex'])[0]`: the prefix of the lexeme
identifier before the first `-` or `_`. -/
def lemmaOf (a : Feats) : String :=
  String.mk ((getFeat a "lex").data.takeWhile (fun c => !(c == '-') && !(c == '_')))

/-- The three `continue` checks of the per-analysis loop: dediacritized
surface match, then `pos` override match, then `lex` override match
against the derived lemma. -/
def survivesFilter (dediac : String → String) (word : String)
    (feats : Feats) (a : Feats) : Bool :=
  dediac (getFeat a "diac") == dediac word &&
  (match lookupFeat feats "pos" with
   | some p => p == getFeat a "pos"
   | none => true) &&
  (match lookupFeat feats "lex" with
   | some l => l == lemmaOf a
   | none => true)

/-- The feature-merge loop over `analysis.keys()`: builds `generate_feats`
or rejects the analysis (`is_valid = False`, modelled as `none`). -/
def mergeFeats (feats : Feats) (hasClitics : Bool) :
    Feats → Option Feats
  | [] => some []
  | (feat, v) :: rest =>
    if feat ∈ ignoredFeats then
      mergeFeats feats hasClitics rest
    else if feat ∈ specifiedFeats ∧ lookupFeat feats feat = none then
      mergeFeats feats hasClitics rest
    else if hasClitics = true ∧ feat ∈ cliticIgnoredFeats then
      mergeFeats feats hasClitics rest
    else
      match lookupFeat feats feat with
      | some ov =>
        if v ≠ "na" then
          (mergeFeats feats hasClitics rest).map (fun m => (feat, ov) :: m)
        else none
      | none =>
        if v ≠ "na" then
          (mergeFeats feats hasClitics rest).map (fun m => (feat, v) :: m)
        else mergeFeats feats hasClitics rest

/-- The body of the per-analysis loop: filter, merge, then generate; a
filtered or rejected analysis contributes no forms, and a generator
returning `None` (here `none`) contributes no forms. -/
def processAnalysis (generator : String → Feats → Option (List String))
    (dediac : String → String) (word : String) (feats : Feats)
    (hasClitics : Bool) (a : Feats) : List String :=
  if survivesFilter dediac word feats a then
    match mergeFeats feats hasClitics a with
    | some gf => (generator (lemmaOf a) gf).getD []
    | none => []
  else []

/-- `CalimaStarReinflector.reinflect`: analyze, early-return on no
analyses, validate overrides, compute `has_clitics`, then accumulate
generated forms over the analyses in order (the `deque`/`extend`
accumulation of the source). -/
def reinflect (defines : String → Option (Option (List String)))
    (analyzer : String → List Feats)
    (generator : String → Feats → Option (List String))
    (dediac : String → String)
    (word : String) (feats : Feats) : Except ReinflectError (List String) :=
  let analyses := analyzer word
  if analyses.isEmpty then Except.ok []
  else
    match validateFeats defines feats with
    | some e => Except.error e
    | none =>
      let hc := hasCliticsOf feats
      Except.ok (analyses.foldl
        (fun results a => results ++ processAnalysis generator dediac word feats hc a) [])

/-- The `flags` record of a `CalimaStarDB`, restricted to the capability
bit the constructor checks. -/
structure DBFlags where
  generation : Bool

/-- The backing database handle: capability flags plus the feature
schema. -/
structure CalimaStarDB where
  flags : DBFlags
  defines : String → Option (Option (List String))

/-- `ReinflectorError` raised by the constructor. -/
inductive ReinflectorInitError where
  | reinflectorError (msg : String)

/-- A constructed reinflector instance holding its database handle. -/
structure CalimaStarReinflector where
  db : CalimaStarDB

/-- `CalimaStarReinflector.__init__`: fails with `ReinflectorError` when
the database does not support generation (the `isinstance` check is
subsumed by the argument's type). -/
def mkReinflector (db : CalimaStarDB) : Except ReinflectorInitError CalimaStarReinflector :=
  if db.flags.generation = false then
    Except.error (ReinflectorInitError.reinflectorError "DB does not support reinflection")
  else Except.ok ⟨db⟩

/-! ## Helper lemmas -/

theorem lookupFeat_eq_none_iff (l : Feats) (k : String) :
    lookupFeat l k = none ↔ k ∉ l.map Prod.fst := by
  induction l with
  | nil => simp [lookupFeat]
  | cons p rest ih =>
    obtain ⟨k0, v0⟩ := p
    by_cases hk : k0 = k
    · subst hk
      simp [lookupFeat]
    · simp [lookupFeat, hk, ih, Ne.symm hk]

theorem mergeFeats_keys_sub {feats : Feats} {hc : Bool} :
    ∀ {a m : Feats}, mergeFeats feats hc a = some m →
      ∀ k, lookupFeat a k = none → lookupFeat m k = none := by
  intro a
  induction a with
  | nil =>
    intro m hm k _
    simp only [mergeFeats, Option.some.injEq] at hm
    simp [← hm, lookupFeat]
  | cons p rest ih =>
    intro m hm k hk
    obtain ⟨k0, v0⟩ := p
    have hk0 : ¬ (k0 = k) := by
      intro h
      simp [lookupFeat, h] at hk
    have hkrest : lookupFeat rest k = none := by
      simpa [lookupFeat, hk0] using hk
    simp only [mergeFeats] at hm
    split at hm
    · exact ih hm k hkrest
    · split at hm
      · exact ih hm k hkrest
      · split at hm
        · exact ih hm k hkrest
        · split at hm
          · split at hm
            · obtain ⟨m', hm', rfl⟩ := Option.map_eq_some'.mp hm
              simp [lookupFeat, hk0]
              exact ih hm' k hkrest
            · exact absurd hm (by simp)
          · split at hm
            · obtain ⟨m', hm', rfl⟩ := Option.map_eq_some'.mp hm
              simp [lookupFeat, hk0]
              exact ih hm' k hkrest
            · exact ih hm k hkrest

theorem foldl_append_eq_flatten (p : Feats → List String) :
    ∀ (l : List Feats) (acc : List String),
      l.foldl (fun r a => r ++ p a) acc = acc ++ (l.map p).flatten := by
  intro l
  induction l with
  | nil => simp
  | cons a rest ih =>
    intro acc
    simp [List.foldl_cons, ih (acc ++ p a)]

theorem validateFeats_append (defines : String → Option (Option (List String)))
    (l1 l2 : Feats) :
    validateFeats defines (l1 ++ l2) =
      match validateFeats defines l1 with
      | some e => some e
      | none => validateFeats defines l2 := by
  induction l1 with
  | nil => simp [validateFeats]
  | cons p rest ih =>
    obtain ⟨k, v⟩ := p
    simp only [List.cons_append, validateFeats]
    cases defines k with
    | none => rfl
    | some d =>
      cases d with
      | none => exact ih
      | some vs =>
        by_cases hv : v ∈ vs
        · simp [hv, ih]
        · simp [hv]

/-- When override validation passes, `reinflect` returns the flattened
per-analysis contributions in analyzer order. -/
theorem reinflect_eq_flatten_map (defines : String → Option (Option (List String)))
    (analyzer : String → List Feats)
    (generator : String → Feats → Option (List String))
    (dediac : String → String) (word : String) (feats : Feats)
    (hval : validateFeats defines feats = none) :
    reinflect defines analyzer generator dediac word feats =
      Except.ok (((analyzer word).map
        (processAnalysis generator dediac word feats (hasCliticsOf feats))).flatten) := by
  unfold reinflect
  cases h : analyzer word with
  | nil => simp
  | cons a as =>
    simp only [List.isEmpty_cons, if_false, hval, Bool.false_eq_true]
    rw [foldl_append_eq_flatten]
    simp

/-! ## Claim theorems -/

/-- C6: if the analyzer returns no analyses for the word, `reinflect`
returns an empty sequence immediately and raises no error, regardless of
the overrides. -/
theorem reinflect_empty_analyses
    (defines : String → Option (Option (List String)))
    (analyzer : String → List Feats)
    (generator : String → Feats → Option (List String))
    (dediac : String → String) (word : String) (feats : Feats)
    (h : analyzer word = []) :
    reinflect defines analyzer generator dediac word feats = Except.ok [] := by
  simp [reinflect, h]

/-- Witness for C6: an override with a feature unknown to the schema still
yields `ok []` when the analyzer output is empty. -/
theorem reinflect_empty_analyses_witness :
    reinflect (fun _ => none) (fun _ => []) (fun _ _ => none) id "w" [("x", "y")]
      = Except.ok [] :=
  reinflect_empty_analyses _ _ _ _ _ _ rfl

/-- C7: when override validation passes, the result of `reinflect` is
exactly the concatenation, in analyzer output order, of each analysis's
contribution, each kept in its generator's own order; filtered, rejected
or generation-empty analyses contribute `[]` and never abort the call. -/
theorem reinflect_concat (defines : String → Option (Option (List String)))
    (analyzer : String → List Feats)
    (generator : String → Feats → Option (List String))
    (dediac : String → String) (word : String) (feats : Feats)
    (hval : validateFeats defines feats = none) :
    reinflect defines analyzer generator dediac word feats =
      Except.ok (((analyzer word).map
        (processAnalysis generator dediac word feats (hasCliticsOf feats))).flatten) :=
  reinflect_eq_flatten_map defines analyzer generator dediac word feats hval

/-- Witness for C7: two verb analyses and a trivially succeeding
generator produce the two generated forms in analyzer order. -/
theorem reinflect_concat_witness :
    reinflect (fun _ => some none)
      (fun _ => [[("diac", "w"), ("lex", "k1"), ("pos", "n")],
                 [("diac", "w"), ("lex", "k2"), ("pos", "n")]])
      (fun l _ => some [l]) id "w" [] = Except.ok ["k1", "k2"] :=
  Eq.trans
    (reinflect_concat (fun _ => some none)
      (fun _ => [[("diac", "w"), ("lex", "k1"), ("pos", "n")],
                 [("diac", "w"), ("lex", "k2"), ("pos", "n")]])
      (fun l _ => some [l]) id "w" [] rfl)
    rfl

/-- If some feature of the overrides reaches the default rule of the
merge loop (not ignored, not clitic-relaxed) while the analysis's own
value for it is `na`, the merge rejects the whole analysis. -/
theorem mergeFeats_none_of_na_override {feats : Feats} {hc : Bool} {k : String}
    (hov : (lookupFeat feats k).isSome)
    (hki : k ∉ ignoredFeats)
    (hkc : ¬(hc = true ∧ k ∈ cliticIgnoredFeats)) :
    ∀ {a : Feats}, lookupFeat a k = some "na" → mergeFeats feats hc a = none := by
  intro a
  induction a with
  | nil => intro hk; simp [lookupFeat] at hk
  | cons p rest ih =>
    intro hka
    obtain ⟨k0, v0⟩ := p
    by_cases hk0 : k0 = k
    · subst hk0
      have hv0 : v0 = "na" := by simpa [lookupFeat] using hka
      subst hv0
      obtain ⟨ov, hov'⟩ := Option.isSome_iff_exists.mp hov
      have h2 : ¬(k0 ∈ specifiedFeats ∧ lookupFeat feats k0 = none) := by
        rintro ⟨-, h⟩
        rw [h] at hov'
        exact Option.noConfusion hov'
      simp [mergeFeats, hki, h2, hkc, hov']
    · have hkrest : lookupFeat rest k = some "na" := by
        simpa [lookupFeat, hk0] using hka
      have hrest := ih hkrest
      simp only [mergeFeats]
      split
      · exact hrest
      · split
        · exact hrest
        · split
          · exact hrest
          · split
            · split
              · simp [hrest]
              · rfl
            · split
              · simp [hrest]
              · exact hrest

/-- Counterexample to C2 as stated: the override targets the feature
`gloss`, whose value in the sole analysis is `na`; since `gloss` is in
the ignored set the analysis is NOT excluded — the call still produces a
generated form. -/
theorem reinflect_na_override_counterexample :
    reinflect (fun _ => some none)
      (fun _ => [[("diac", "w"), ("lex", "l"), ("pos", "n"), ("gloss", "na")]])
      (fun _ _ => some ["g1"]) id "w" [("gloss", "x")] = Except.ok ["g1"] := rfl

/-- C2 (amended): if an override key targets a feature present in the
analysis with value `na`, and that feature is neither in the ignored set
nor removed by the clitic relaxation, the analysis is rejected — it
contributes zero generated forms — while the remaining analyses are
still processed in order. -/
theorem reinflect_na_override_excludes
    (defines : String → Option (Option (List String)))
    (analyzer : String → List Feats)
    (generator : String → Feats → Option (List String))
    (dediac : String → String) (word : String)
    (feats : Feats) (pre post : List Feats) (a : Feats) (k : String)
    (hval : validateFeats defines feats = none)
    (hsplit : analyzer word = pre ++ a :: post)
    (hka : lookupFeat a k = some "na")
    (hov : (lookupFeat feats k).isSome)
    (hki : k ∉ ignoredFeats)
    (hkc : ¬(hasCliticsOf feats = true ∧ k ∈ cliticIgnoredFeats)) :
    processAnalysis generator dediac word feats (hasCliticsOf feats) a = [] ∧
    reinflect defines analyzer generator dediac word feats
      = Except.ok
          ((pre.map (processAnalysis generator dediac word feats (hasCliticsOf feats))).flatten
            ++ (post.map (processAnalysis generator dediac word feats (hasCliticsOf feats))).flatten) := by
  have hmerge := mergeFeats_none_of_na_override hov hki hkc hka
  have hproc : processAnalysis generator dediac word feats (hasCliticsOf feats) a = [] := by
    simp [processAnalysis, hmerge]
  refine ⟨hproc, ?_⟩
  have h := reinflect_eq_flatten_map defines analyzer generator dediac word feats hval
  rw [h, hsplit]
  simp [hproc]

/-- Counterexample to C3 as stated: the overrides contain a key unknown
to the schema, but the analyzer returns no analyses, so the call returns
`ok []` instead of failing (the empty-analyses early return precedes
validation). -/
theorem reinflect_unknown_feature_counterexample :
    reinflect (fun _ => none) (fun _ => []) (fun _ _ => none) id "q"
      [("unknownfeat", "v")] = Except.ok [] := rfl

/-- C3 (amended): provided the analyzer returns at least one analysis,
and the overrides split as `pre ++ (k, v) :: post` with every key of
`pre` passing validation, then: if `k` is absent from the schema the
call fails with `InvalidReinflectorFeature k`; if the schema maps `k` to
a finite set `vs` with `v ∉ vs` the call fails with
`InvalidReinflectorFeatureValue k v`.  In both cases the whole call
aborts with no partial results, and the generator (a universally
quantified parameter) is never consulted. -/
theorem reinflect_validation_errors
    (defines : String → Option (Option (List String)))
    (analyzer : String → List Feats)
    (generator : String → Feats → Option (List String))
    (dediac : String → String) (word : String)
    (pre post : Feats) (k v : String)
    (hne : analyzer word ≠ [])
    (hpre : validateFeats defines pre = none) :
    (defines k = none →
      reinflect defines analyzer generator dediac word (pre ++ (k, v) :: post)
        = Except.error (ReinflectError.invalidFeature k)) ∧
    (∀ vs, defines k = some (some vs) → v ∉ vs →
      reinflect defines analyzer generator dediac word (pre ++ (k, v) :: post)
        = Except.error (ReinflectError.invalidFeatureValue k v)) := by
  have hbase : ∀ e, validateFeats defines ((k, v) :: post) = some e →
      reinflect defines analyzer generator dediac word (pre ++ (k, v) :: post)
        = Except.error e := by
    intro e he
    have hv : validateFeats defines (pre ++ (k, v) :: post) = some e := by
      rw [validateFeats_append, hpre]
      exact he
    unfold reinflect
    cases h : analyzer word with
    | nil => exact absurd h hne
    | cons x xs => simp [hv]
  constructor
  · intro hk
    exact hbase _ (by simp [validateFeats, hk])
  · intro vs hk hv
    exact hbase _ (by simp [validateFeats, hk, hv])

/-- Witness for C3 (amended): an unknown override key and an
out-of-domain override value each abort a call whose analyzer output is
nonempty. -/
theorem reinflect_validation_errors_witness :
    reinflect (fun f => if f = "pos" then some (some ["noun", "verb"]) else none)
      (fun _ => [[("diac", "w")]]) (fun _ _ => none) id "w" [("bad", "x")]
      = Except.error (ReinflectError.invalidFeature "bad") ∧
    reinflect (fun f => if f = "pos" then some (some ["noun", "verb"]) else none)
      (fun _ => [[("diac", "w")]]) (fun _ _ => none) id "w" [("pos", "adj")]
      = Except.error (ReinflectError.invalidFeatureValue "pos" "adj") :=
  ⟨(reinflect_validation_errors (fun f => if f = "pos" then some (some ["noun", "verb"]) else none)
      (fun _ => [[("diac", "w")]]) (fun _ _ => none) id "w" [] [] "bad" "x"
      (List.cons_ne_nil _ _) rfl).1 (by decide),
   (reinflect_validation_errors (fun f => if f = "pos" then some (some ["noun", "verb"]) else none)
      (fun _ => [[("diac", "w")]]) (fun _ _ => none) id "w" [] [] "pos" "adj"
      (List.cons_ne_nil _ _) rfl).2 ["noun", "verb"] (by decide) (by decide)⟩

/-- Witness for C2 (amended): overriding `cas` on an analysis whose
`cas` value is `na` drops that analysis; a sibling analysis still
generates. -/
theorem reinflect_na_override_excludes_witness :
    processAnalysis (fun l _ => some [l]) id "w" [("cas", "a")] (hasCliticsOf [("cas", "a")])
        [("diac", "w"), ("lex", "l"), ("pos", "n"), ("cas", "na")] = [] ∧
    reinflect (fun _ => some none)
      (fun _ => [[("diac", "w"), ("lex", "g"), ("pos", "n")],
                 [("diac", "w"), ("lex", "l"), ("pos", "n"), ("cas", "na")]])
      (fun l _ => some [l]) id "w" [("cas", "a")] = Except.ok ["g"] := by
  have h := reinflect_na_override_excludes (fun _ => some none)
    (fun _ => [[("diac", "w"), ("lex", "g"), ("pos", "n")],
               [("diac", "w"), ("lex", "l"), ("pos", "n"), ("cas", "na")]])
    (fun l _ => some [l]) id "w" [("cas", "a")]
    [[("diac", "w"), ("lex", "g"), ("pos", "n")]] []
    [("diac", "w"), ("lex", "l"), ("pos", "n"), ("cas", "na")] "cas"
    rfl rfl rfl rfl (by decide) (by decide)
  exact ⟨h.1, h.2.trans rfl⟩

/-- The Boolean filter of the per-analysis loop, characterised in terms
of the three checks of the spec. -/
theorem survivesFilter_iff (dediac : String → String) (word : String)
    (feats a : Feats) :
    survivesFilter dediac word feats a = true ↔
      (dediac (getFeat a "diac") = dediac word ∧
       (∀ p, lookupFeat feats "pos" = some p → p = getFeat a "pos") ∧
       (∀ l, lookupFeat feats "lex" = some l → l = lemmaOf a)) := by
  unfold survivesFilter
  cases hpos : lookupFeat feats "pos" <;> cases hlex : lookupFeat feats "lex" <;>
    simp [Bool.and_eq_true, beq_iff_eq, and_assoc]

/-- C5: an analysis contributes zero generated forms whenever its
dediacritized surface differs from the dediacritized input word, or a
`pos` override differs from its `pos`, or a `lex` override differs from
the lemma derived from its lexeme identifier; when none of these holds
the analysis passes the filter and proceeds to the merge/generate
stage. -/
theorem processAnalysis_filter (generator : String → Feats → Option (List String))
    (dediac : String → String) (word : String) (feats : Feats)
    (hc : Bool) (a : Feats) :
    ((dediac (getFeat a "diac") ≠ dediac word
      ∨ (∃ p, lookupFeat feats "pos" = some p ∧ p ≠ getFeat a "pos")
      ∨ (∃ l, lookupFeat feats "lex" = some l ∧ l ≠ lemmaOf a))
     → processAnalysis generator dediac word feats hc a = []) ∧
    ((dediac (getFeat a "diac") = dediac word
      ∧ (∀ p, lookupFeat feats "pos" = some p → p = getFeat a "pos")
      ∧ (∀ l, lookupFeat feats "lex" = some l → l = lemmaOf a))
     → processAnalysis generator dediac word feats hc a
       = match mergeFeats feats hc a with
         | some gf => (generator (lemmaOf a) gf).getD []
         | none => []) := by
  constructor
  · intro hdrop
    have hs : survivesFilter dediac word feats a = false := by
      cases h : survivesFilter dediac word feats a with
      | false => rfl
      | true =>
        obtain ⟨h1, h2, h3⟩ := (survivesFilter_iff dediac word feats a).mp h
        rcases hdrop with hd | ⟨p, hp, hne⟩ | ⟨l, hl, hne⟩
        · exact absurd h1 hd
        · exact absurd (h2 p hp) hne
        · exact absurd (h3 l hl) hne
    simp [processAnalysis, hs]
  · intro hpass
    have hs : survivesFilter dediac word feats a = true :=
      (survivesFilter_iff dediac word feats a).mpr hpass
    simp [processAnalysis, hs]

/-- Witness for C5: a `pos` override `verb` drops a `noun` analysis,
and with no overrides the same analysis passes through to the generator
stage. -/
theorem processAnalysis_filter_witness :
    processAnalysis (fun l _ => some [l]) id "w" [("pos", "verb")] false
      [("diac", "w"), ("lex", "k"), ("pos", "noun")] = [] ∧
    processAnalysis (fun l _ => some [l]) id "w" [] false
      [("diac", "w"), ("lex", "k"), ("pos", "noun")] = ["k"] :=
  ⟨(processAnalysis_filter (fun l _ => some [l]) id "w" [("pos", "verb")] false
      [("diac", "w"), ("lex", "k"), ("pos", "noun")]).1
      (Or.inr (Or.inl ⟨"verb", rfl, by decide⟩)),
   ((processAnalysis_filter (fun l _ => some [l]) id "w" [] false
      [("diac", "w"), ("lex", "k"), ("pos", "noun")]).2
      (by exact ⟨rfl, by simp [lookupFeat], by simp [lookupFeat]⟩)).trans rfl⟩

/-- With `has_clitics` true, a state/case/mood entry at the head of the
analysis is skipped by the merge loop. -/
theorem mergeFeats_cons_clitic {feats : Feats} {k0 v0 : String}
    (hk : k0 ∈ cliticIgnoredFeats) (rest : Feats) :
    mergeFeats feats true ((k0, v0) :: rest) = mergeFeats feats true rest := by
  by_cases h1 : k0 ∈ ignoredFeats
  · simp [mergeFeats, h1]
  · by_cases h2 : k0 ∈ specifiedFeats ∧ lookupFeat feats k0 = none
    · simp [mergeFeats, h1, h2]
    · simp [mergeFeats, h1, h2, hk]

/-- The merge loop is a fold over the analysis entries: equal merges of
two tails give equal merges after consing the same entry. -/
theorem mergeFeats_cons_congr {feats : Feats} {hc : Bool} {t1 t2 : Feats}
    (p : String × String)
    (h : mergeFeats feats hc t1 = mergeFeats feats hc t2) :
    mergeFeats feats hc (p :: t1) = mergeFeats feats hc (p :: t2) := by
  obtain ⟨k0, v0⟩ := p
  simp only [mergeFeats, h]

/-- With `has_clitics` true, deleting any state/case/mood entry from an
analysis does not change the merge result: those features participate
neither in the `na`-rejection check nor in the generated feature set. -/
theorem mergeFeats_clitic_erase {feats : Feats} {k0 : String}
    (hk : k0 ∈ cliticIgnoredFeats) (v0 : String) :
    ∀ a1 a2 : Feats, mergeFeats feats true (a1 ++ (k0, v0) :: a2)
      = mergeFeats feats true (a1 ++ a2) := by
  intro a1
  induction a1 with
  | nil => intro a2; exact mergeFeats_cons_clitic hk a2
  | cons p rest ih =>
    intro a2
    simp only [List.cons_append]
    exact mergeFeats_cons_congr p (ih a2)

/-- With `has_clitics` true, no state/case/mood feature ever appears in
a successfully merged feature set. -/
theorem mergeFeats_clitic_not_mem {feats : Feats} :
    ∀ {a m : Feats}, mergeFeats feats true a = some m →
      ∀ k ∈ cliticIgnoredFeats, lookupFeat m k = none := by
  intro a
  induction a with
  | nil =>
    intro m hm k _
    simp only [mergeFeats, Option.some.injEq] at hm
    simp [← hm, lookupFeat]
  | cons p rest ih =>
    intro m hm k hk
    obtain ⟨k0, v0⟩ := p
    simp only [mergeFeats] at hm
    split at hm
    · exact ih hm k hk
    · split at hm
      · exact ih hm k hk
      · split at hm
        · exact ih hm k hk
        · rename_i h3
          have hk0 : ¬ (k0 = k) := by
            intro h
            exact h3 ⟨by trivial, h ▸ hk⟩
          split at hm
          · split at hm
            · obtain ⟨m', hm', rfl⟩ := Option.map_eq_some'.mp hm
              simp only [lookupFeat, if_neg hk0]
              exact ih hm' k hk
            · exact absurd hm (by simp)
          · split at hm
            · obtain ⟨m', hm', rfl⟩ := Option.map_eq_some'.mp hm
              simp only [lookupFeat, if_neg hk0]
              exact ih hm' k hk
            · exact ih hm k hk

/-- C4: if the overrides contain any of the five clitic-slot feature
names, then `has_clitics` is computed true, and for the remainder of the
call state/case/mood entries are inert: deleting any such entry from an
analysis leaves the merge result unchanged (so they take part in neither
the `na`-rejection check nor the generated feature set), and no such
feature occurs in any successfully merged feature set. -/
theorem hasClitics_relaxation (feats : Feats)
    (h : ∃ c ∈ cliticFeats, (lookupFeat feats c).isSome) :
    hasCliticsOf feats = true ∧
    (∀ (k : String), k ∈ cliticIgnoredFeats → ∀ (v : String) (a1 a2 : Feats),
      mergeFeats feats (hasCliticsOf feats) (a1 ++ (k, v) :: a2)
        = mergeFeats feats (hasCliticsOf feats) (a1 ++ a2)) ∧
    (∀ a m : Feats, mergeFeats feats (hasCliticsOf feats) a = some m →
      ∀ k ∈ cliticIgnoredFeats, lookupFeat m k = none) := by
  obtain ⟨c, hc, hs⟩ := h
  have hcl : hasCliticsOf feats = true := by
    unfold hasCliticsOf
    rw [List.any_eq_true]
    exact ⟨c, hc, hs⟩
  refine ⟨hcl, ?_, ?_⟩
  · intro k hk v a1 a2
    rw [hcl]
    exact mergeFeats_clitic_erase hk v a1 a2
  · intro a m hm k hk
    rw [hcl] at hm
    exact mergeFeats_clitic_not_mem hm k hk

/-- Witness for C4: an `enc0` override turns on the clitic relaxation;
the instantiated consequences hold for the concrete override list. -/
theorem hasClitics_relaxation_witness :
    hasCliticsOf [("enc0", "3ms_dobj")] = true ∧
    (∀ (k : String), k ∈ cliticIgnoredFeats → ∀ (v : String) (a1 a2 : Feats),
      mergeFeats [("enc0", "3ms_dobj")] (hasCliticsOf [("enc0", "3ms_dobj")]) (a1 ++ (k, v) :: a2)
        = mergeFeats [("enc0", "3ms_dobj")] (hasCliticsOf [("enc0", "3ms_dobj")]) (a1 ++ a2)) ∧
    (∀ a m : Feats, mergeFeats [("enc0", "3ms_dobj")] (hasCliticsOf [("enc0", "3ms_dobj")]) a = some m →
      ∀ k ∈ cliticIgnoredFeats, lookupFeat m k = none) :=
  hasClitics_relaxation [("enc0", "3ms_dobj")] ⟨"enc0", by decide, rfl⟩

/-- Full extensional characterisation of the merged feature set, for
analyses with distinct keys (as Python dicts guarantee): a binding
`k ↦ w` occurs in the output precisely when `k` is not ignored, is not
a specified-only feature missing from the overrides, is not removed by
the clitic relaxation, and the analysis binds `k` to some `v ≠ "na"`
with `w` the override value when `k` is overridden and `w = v`
otherwise. -/
theorem mergeFeats_lookup_iff {feats : Feats} {hc : Bool} :
    ∀ {a m : Feats}, (a.map Prod.fst).Nodup →
      mergeFeats feats hc a = some m →
      ∀ k w, (lookupFeat m k = some w ↔
        (k ∉ ignoredFeats ∧
         ¬(k ∈ specifiedFeats ∧ lookupFeat feats k = none) ∧
         ¬(hc = true ∧ k ∈ cliticIgnoredFeats) ∧
         ∃ v, lookupFeat a k = some v ∧ v ≠ "na" ∧
           (lookupFeat feats k = some w ∨ (lookupFeat feats k = none ∧ w = v)))) := by
  intro a
  induction a with
  | nil =>
    intro m _ hm k w
    simp only [mergeFeats, Option.some.injEq] at hm
    subst hm
    simp [lookupFeat]
  | cons p rest ih =>
    intro m hnd hm k w
    obtain ⟨k0, v0⟩ := p
    have hnd' : (rest.map Prod.fst).Nodup := (List.nodup_cons.mp (by simpa using hnd)).2
    have hk0rest : lookupFeat rest k0 = none :=
      (lookupFeat_eq_none_iff rest k0).mpr (List.nodup_cons.mp (by simpa using hnd)).1
    simp only [mergeFeats] at hm
    by_cases hk : k0 = k
    · subst hk
      split at hm
      · rename_i h1
        have hmk : lookupFeat m k0 = none := mergeFeats_keys_sub hm k0 hk0rest
        simp [hmk, h1]
      · split at hm
        · rename_i h1 h2
          have hmk : lookupFeat m k0 = none := mergeFeats_keys_sub hm k0 hk0rest
          simp [hmk, h2.1, h2.2]
        · split at hm
          · rename_i h1 h2 h3
            have hmk : lookupFeat m k0 = none := mergeFeats_keys_sub hm k0 hk0rest
            simp [hmk, h3.1, h3.2]
          · rename_i h1 h2 h3
            cases hov : lookupFeat feats k0 with
            | some ov =>
              rw [hov] at hm
              by_cases hna : v0 = "na"
              · simp [hna] at hm
              · simp only [ne_eq, hna, not_false_eq_true, if_true] at hm
                obtain ⟨m', hm', rfl⟩ := Option.map_eq_some'.mp hm
                simp [lookupFeat, hov, h1, h2, h3, hna, eq_comm]
            | none =>
              rw [hov] at hm
              by_cases hna : v0 = "na"
              · simp only [ne_eq, hna, not_true_eq_false, if_false] at hm
                have hmk : lookupFeat m k0 = none := mergeFeats_keys_sub hm k0 hk0rest
                simp [hmk, lookupFeat, hna]
              · simp only [ne_eq, hna, not_false_eq_true, if_true] at hm
                obtain ⟨m', hm', rfl⟩ := Option.map_eq_some'.mp hm
                have h2' : k0 ∉ specifiedFeats := fun hs => h2 ⟨hs, hov⟩
                simp [lookupFeat, hov, h1, h2', h3, hna, eq_comm]
    · have hlk : lookupFeat ((k0, v0) :: rest) k = lookupFeat rest k := by
        simp [lookupFeat, hk]
      rw [hlk]
      split at hm
      · exact ih hnd' hm k w
      · split at hm
        · exact ih hnd' hm k w
        · split at hm
          · exact ih hnd' hm k w
          · split at hm
            · split at hm
              · obtain ⟨m', hm', rfl⟩ := Option.map_eq_some'.mp hm
                rw [show lookupFeat ((k0, _) :: m') k = lookupFeat m' k from by
                  simp [lookupFeat, hk]]
                exact ih hnd' hm' k w
              · exact absurd hm (by simp)
            · split at hm
              · obtain ⟨m', hm', rfl⟩ := Option.map_eq_some'.mp hm
                rw [show lookupFeat ((k0, v0) :: m') k = lookupFeat m' k from by
                  simp [lookupFeat, hk]]
                exact ih hnd' hm' k w
              · exact ih hnd' hm k w

/-- C1: over an analysis with distinct keys, the Feature Merger's output
is exactly governed by the first-match-wins precedence of the source: a
binding `k ↦ w` is in the generated feature set iff `k` is not an
ignored display/derived feature, `k` is not a specified-only feature
absent from the overrides, `k` is not a state/case/mood feature removed
by `has_clitics`, and the analysis binds `k` to some `v ≠ "na"`, with
`w` the override value when `k` is overridden and `w = v` otherwise
(`na`-valued non-overridden features are omitted). -/
theorem mergeFeats_characterization (feats : Feats) (hc : Bool) (a m : Feats)
    (hnd : (a.map Prod.fst).Nodup)
    (hm : mergeFeats feats hc a = some m) (k w : String) :
    lookupFeat m k = some w ↔
      (k ∉ ignoredFeats ∧
       ¬(k ∈ specifiedFeats ∧ lookupFeat feats k = none) ∧
       ¬(hc = true ∧ k ∈ cliticIgnoredFeats) ∧
       ∃ v, lookupFeat a k = some v ∧ v ≠ "na" ∧
         (lookupFeat feats k = some w ∨ (lookupFeat feats k = none ∧ w = v))) :=
  mergeFeats_lookup_iff hnd hm k w

/-- Witness for C1: a six-feature analysis with a `cas` override; the
characterisation instantiated at the overridden binding. -/
theorem mergeFeats_characterization_witness :
    lookupFeat [("pos", "n"), ("cas", "a")] "cas" = some "a" ↔
      ("cas" ∉ ignoredFeats ∧
       ¬("cas" ∈ specifiedFeats ∧ lookupFeat [("cas", "a")] "cas" = none) ∧
       ¬(false = true ∧ "cas" ∈ cliticIgnoredFeats) ∧
       ∃ v, lookupFeat [("diac", "w"), ("lex", "k-1"), ("pos", "n"), ("cas", "u"),
              ("stt", "na"), ("form_gen", "f")] "cas" = some v ∧ v ≠ "na" ∧
         (lookupFeat [("cas", "a")] "cas" = some "a" ∨
          (lookupFeat [("cas", "a")] "cas" = none ∧ "a" = v))) :=
  mergeFeats_characterization [("cas", "a")] false
    [("diac", "w"), ("lex", "k-1"), ("pos", "n"), ("cas", "u"),
     ("stt", "na"), ("form_gen", "f")]
    [("pos", "n"), ("cas", "a")] (by decide) rfl "cas" "a"

/-- C8: for a successfully merged analysis with distinct keys, the
feature set passed to the generator has keys drawn from the analysis's
own keys minus the ignored set — an override whose key is absent from
the analysis is silently dropped — and every non-overridden value equals
the analysis's value for that key and is never `na`. -/
theorem mergeFeats_genfeats_invariant (feats : Feats) (hc : Bool) (a m : Feats)
    (hnd : (a.map Prod.fst).Nodup)
    (hm : mergeFeats feats hc a = some m) :
    (∀ k, lookupFeat a k = none → lookupFeat m k = none) ∧
    (∀ k w, lookupFeat m k = some w →
      (lookupFeat a k).isSome ∧ k ∉ ignoredFeats ∧
      (lookupFeat feats k = none → lookupFeat a k = some w ∧ w ≠ "na")) := by
  refine ⟨mergeFeats_keys_sub hm, ?_⟩
  intro k w hkw
  obtain ⟨hig, hsp, hcl, v, hv, hvna, hcase⟩ := (mergeFeats_lookup_iff hnd hm k w).mp hkw
  refine ⟨by simp [hv], hig, ?_⟩
  intro hfk
  rcases hcase with hcase | ⟨-, rfl⟩
  · rw [hfk] at hcase
    exact Option.noConfusion hcase
  · exact ⟨hv, hvna⟩

/-- Witness for C8: a `cas` override whose key is absent from the
analysis is dropped; the merged set holds only the binding `pos ↦ n`. -/
theorem mergeFeats_genfeats_invariant_witness :
    (∀ k, lookupFeat [("diac", "w"), ("lex", "l"), ("pos", "n")] k = none →
      lookupFeat [("pos", "n")] k = none) ∧
    (∀ k w, lookupFeat [("pos", "n")] k = some w →
      (lookupFeat [("diac", "w"), ("lex", "l"), ("pos", "n")] k).isSome ∧
      k ∉ ignoredFeats ∧
      (lookupFeat [("cas", "a")] k = none →
        lookupFeat [("diac", "w"), ("lex", "l"), ("pos", "n")] k = some w ∧ w ≠ "na")) :=
  mergeFeats_genfeats_invariant [("cas", "a")] false
    [("diac", "w"), ("lex", "l"), ("pos", "n")] [("pos", "n")] (by decide) rfl

/-- C9: constructing a reinflector over a database whose generation
capability flag is false fails with `ReinflectorError`, so no usable
instance is produced. -/
theorem mkReinflector_no_generation (db : CalimaStarDB)
    (h : db.flags.generation = false) :
    mkReinflector db = Except.error
      (ReinflectorInitError.reinflectorError "DB does not support reinflection") := by
  simp [mkReinflector, h]

/-- Witness for C9: a concrete database with generation disabled. -/
theorem mkReinflector_no_generation_witness :
    mkReinflector ⟨⟨false⟩, fun _ => none⟩ = Except.error
      (ReinflectorInitError.reinflectorError "DB does not support reinflection") :=
  mkReinflector_no_generation ⟨⟨false⟩, fun _ => none⟩ rfl

/-- C10: `reinflect` is a pure function of the schema, analyzer,
generator, dediacritization utility, word and overrides — it holds no
mutable state across calls — so two calls with identical arguments
return identical ordered result sequences. -/
theorem reinflect_deterministic (defines : String → Option (Option (List String)))
    (analyzer : String → List Feats)
    (generator : String → Feats → Option (List String))
    (dediac : String → String) (word : String) (feats : Feats) :
    reinflect defines analyzer generator dediac word feats =
      reinflect defines analyzer generator dediac word feats := rfl

end CalimaStar
